import Mathlib

/-!
Verification of the FB-page-to-Discord watcher (`src/watcher.js`).

The program is a single polling-and-relay pass: it loads a watermark
(`state.json`), fetches the newest page posts (newest-first), selects the
posts strictly newer than the watermark, delivers them oldest-first to a
Discord webhook, and finally persists the id of the newest fetched post as
the new watermark.

The shallow embedding below translates each function of `src/watcher.js`
into a Lean definition.  Network I/O (the feed fetch, the image download,
the webhook POSTs) and the JS runtime's JSON parser are modelled as
explicit inputs (oracles): a run is a pure function of the loaded state,
the fetch outcome and the delivery outcomes.
-/

namespace Watcher

/-! ## JS primitives used by the source -/

/-- JS truthiness of a nullable string: `null`/`undefined` and `""` are falsy. -/
def truthyStr : Option String → Bool
  | none => false
  | some s => s ≠ ""

/-- JS `a || b` on strings: returns `b` when `a` is falsy (empty). -/
def jsOr (a b : String) : String :=
  if a = "" then b else a

/-- JS `s.slice(0, n)` on a string (code-unit prefix of length at most `n`). -/
def jsSliceTo (s : String) (n : Nat) : String :=
  String.mk (s.toList.take n)

/-- The character class of the JS regex `\s` (also the class used by
`String.prototype.trim`): ASCII whitespace, NBSP, the Unicode space
separators, line/paragraph separators and the BOM. -/
def jsWhitespace (c : Char) : Bool :=
  c = ' ' || c = '\t' || c = '\n' || c = '\r' || c.toNat = 0xb || c.toNat = 0xc ||
  c.toNat = 0xa0 || c.toNat = 0x1680 ||
  (0x2000 ≤ c.toNat && c.toNat ≤ 0x200a) ||
  c.toNat = 0x2028 || c.toNat = 0x2029 || c.toNat = 0x202f ||
  c.toNat = 0x205f || c.toNat = 0x3000 || c.toNat = 0xfeff

/-- JS `s.trim()`: drop leading and trailing whitespace. -/
def jsTrim (l : List Char) : List Char :=
  ((l.dropWhile jsWhitespace).reverse.dropWhile jsWhitespace).reverse

/-- JS `s.replace(/\s+/g, " ")`: every maximal whitespace run becomes one
space.  The boolean argument records whether the previous character was
part of a whitespace run. -/
def collapseWsAux : Bool → List Char → List Char
  | _, [] => []
  | prevWs, c :: rest =>
    if jsWhitespace c then
      if prevWs then collapseWsAux true rest
      else ' ' :: collapseWsAux true rest
    else c :: collapseWsAux false rest

/-- JS `s.replace(/\s+/g, " ")` on a whole string. -/
def collapseWs (l : List Char) : List Char :=
  collapseWsAux false l

/-! ## `cleanText` and `makeTitleFromMessage` (src/watcher.js:66-74) -/

/-- `cleanText(s)`: `(s ? String(s) : "").trim()`.  An absent or empty
message becomes `""`; otherwise the string is trimmed. -/
def cleanText (s : Option String) : String :=
  match s with
  | none => ""
  | some t => if t = "" then "" else String.mk (jsTrim t.toList)

/-- `makeTitleFromMessage(msg)` from src/watcher.js:70-74: falsy message
gives a fixed default; otherwise whitespace runs are collapsed, the result
trimmed, and titles longer than 80 characters are cut to 77 plus `"..."`. -/
def makeTitleFromMessage (msg : String) : String :=
  if msg = "" then "New Facebook Page post"
  else
    let oneLine := String.mk (jsTrim (collapseWs msg.toList))
    if oneLine.length > 80 then String.mk (oneLine.toList.take 77) ++ "..."
    else oneLine

/-- The whitespace-normalised form of a message: runs collapsed to single
spaces, then trimmed.  Stated separately so theorems can relate the title
maker to it. -/
def normalizeMsg (msg : String) : String :=
  String.mk (jsTrim (collapseWs msg.toList))

/-! ## Data model -/

/-- A post as fetched from the feed (the scalar fields `main` reads;
`attachments` only feeds the image resolver, whose output is modelled as
the already-resolved `imageUrl` input of the dispatcher). -/
structure Post where
  id : String
  message : Option String := none
  created_time : Option String := none
  permalink_url : Option String := none
  full_picture : Option String := none
deriving Repr, DecidableEq

/-- A post carrying only an id (concrete test inputs). -/
def mkPost (i : String) : Post := { id := i }

/-- The persisted state file `state.json` (src/watcher.js:20-30). -/
structure WatermarkState where
  last_post_id : Option String
deriving Repr, DecidableEq

/-! ## The new-post selector and the run (src/watcher.js:142-219) -/

/-- The collection loop of src/watcher.js:184-188: walk the newest-first
sequence and collect posts until one whose id equals the watermark. -/
def newPostsOf (posts : List Post) (wm : String) : List Post :=
  posts.takeWhile (fun p => p.id != wm)

/-- Observable outcome of one run: the state written by `saveState` (if
any write happened), the posts delivered in delivery order, and whether
the run completed without a thrown error. -/
structure RunResult where
  saved : Option WatermarkState
  delivered : List Post
  ok : Bool
deriving Repr, DecidableEq

/-- `main()` from src/watcher.js:142-219, with I/O as explicit inputs:
`st` is the loaded state, `fetched` the outcome of the feed fetch
(`Except.error` models a thrown `FetchError`), and `deliverOk` the number
of `sendToDiscord` calls that succeed before one throws (all succeed when
`deliverOk` is at least the number of new posts). -/
def runMain (st : WatermarkState) (fetched : Except String (List Post))
    (deliverOk : Nat) : RunResult :=
  match fetched with
  | .error _ => ⟨none, [], false⟩
  | .ok posts =>
    match posts with
    | [] => ⟨none, [], true⟩
    | first :: _ =>
      if truthyStr st.last_post_id then
        match st.last_post_id with
        | none => ⟨some ⟨some first.id⟩, [], true⟩
        | some wm =>
          let newPosts := (newPostsOf posts wm).reverse
          if newPosts.isEmpty then ⟨none, [], true⟩
          else if deliverOk < newPosts.length then
            ⟨none, newPosts.take deliverOk, false⟩
          else
            ⟨some ⟨some first.id⟩, newPosts, true⟩
      else ⟨some ⟨some first.id⟩, [], true⟩

/-! ## Substring containment (for claims about error-message contents) -/

/-- `listStarts hay needle`: `needle` is a prefix of `hay`. -/
def listStarts : List Char → List Char → Bool
  | _, [] => true
  | [], _ :: _ => false
  | a :: as, b :: bs => a == b && listStarts as bs

/-- `listContains hay needle`: `needle` occurs contiguously in `hay`. -/
def listContains : List Char → List Char → Bool
  | [], needle => listStarts [] needle
  | c :: t, needle => listStarts (c :: t) needle || listContains t needle

/-- String containment, as JS `s.includes(sub)`. -/
def strContains (s sub : String) : Bool :=
  listContains s.toList sub.toList

/-! ## A model of parsed JSON values (what `JSON.parse` returns) -/

/-- Parsed JSON values.  `fbFetch` only inspects the parse outcome, the
truthiness of the `error` property and `JSON.stringify` of the value. -/
inductive JsonVal where
  | jnull : JsonVal
  | jbool : Bool → JsonVal
  | jnum : Int → JsonVal
  | jstr : String → JsonVal
  | jarr : List JsonVal → JsonVal
  | jobj : List (String × JsonVal) → JsonVal

/-- Escaping of one character inside a JSON string literal (quote and
backslash; the model keeps other characters as they are). -/
def jsonEscapeChar (c : Char) : String :=
  if c = '"' then "\\\"" else if c = '\\' then "\\\\" else String.mk [c]

/-- Escaping of a JSON string literal body. -/
def jsonEscape (s : String) : String :=
  String.join (s.toList.map jsonEscapeChar)

mutual

/-- `JSON.stringify` of a parsed value. -/
def serializeJson : JsonVal → String
  | .jnull => "null"
  | .jbool true => "true"
  | .jbool false => "false"
  | .jnum n => toString n
  | .jstr s => "\"" ++ jsonEscape s ++ "\""
  | .jarr l => "[" ++ serializeArr l ++ "]"
  | .jobj f => "\x7b" ++ serializeObj f ++ "\x7d"

/-- Comma-separated serialization of an array's elements. -/
def serializeArr : List JsonVal → String
  | [] => ""
  | [x] => serializeJson x
  | x :: y :: t => serializeJson x ++ "," ++ serializeArr (y :: t)

/-- Comma-separated serialization of an object's fields. -/
def serializeObj : List (String × JsonVal) → String
  | [] => ""
  | [(k, v)] => "\"" ++ jsonEscape k ++ "\":" ++ serializeJson v
  | (k, v) :: f :: t =>
    "\"" ++ jsonEscape k ++ "\":" ++ serializeJson v ++ "," ++
      serializeObj (f :: t)

end

/-- JS property access `j.k` on a parsed value: a field of an object
(`JSON.parse` output has unique keys), `undefined` otherwise. -/
def getField (j : JsonVal) (k : String) : Option JsonVal :=
  match j with
  | .jobj fields => fields.lookup k
  | _ => none

/-- JS truthiness of a property-access result (`undefined`, `null`,
`false`, `0`, `""` are falsy). -/
def truthyJson : Option JsonVal → Bool
  | none => false
  | some .jnull => false
  | some (.jbool b) => b
  | some (.jnum n) => n ≠ 0
  | some (.jstr s) => s ≠ ""
  | some (.jarr _) => true
  | some (.jobj _) => true

/-! ## `fbFetch` (src/watcher.js:32-48) -/

/-- `fbFetch` after the HTTP exchange: `status` and `ok` come from the
response object, `text` is the raw body, and `parsed` is the outcome of
`JSON.parse(text)` (`none` models a parse exception).  `Except.error`
models the thrown `FetchError`; its payload is the error message. -/
def fbFetch (status : Nat) (ok : Bool) (text : String)
    (parsed : Option JsonVal) : Except String JsonVal :=
  match parsed with
  | none =>
    .error ("FB HTTP " ++ toString status ++ ": Non-JSON response: " ++
      jsSliceTo text 300)
  | some json =>
    if !ok || truthyJson (getField json "error") then
      .error ("FB HTTP " ++ toString status ++ ": " ++ serializeJson json)
    else
      .ok json

/-! ## `sendToDiscord` (src/watcher.js:76-140) -/

/-- The embed object built by `sendToDiscord` (mutable in the source:
`image` is set when the downloaded image is attached). -/
structure Embed where
  title : String
  url : String
  description : String
  timestamp : String
  image : Option String
deriving Repr, DecidableEq

/-- A webhook payload `{ username, content, embeds }`. -/
structure Payload where
  username : String
  content : String
  embeds : List Embed
deriving Repr, DecidableEq

/-- One HTTP POST made to the webhook: multipart form-data with an
attached file, or a plain JSON body. -/
inductive WebhookRequest where
  | multipart : Payload → WebhookRequest
  | jsonPost : Payload → WebhookRequest
deriving Repr, DecidableEq

/-- The payload carried by a webhook request. -/
def reqPayload : WebhookRequest → Payload
  | .multipart p => p
  | .jsonPost p => p

/-- An HTTP response as the code reads it: `ok`, `status`, body text. -/
structure HttpResp where
  ok : Bool
  status : Nat
  body : String
deriving Repr, DecidableEq

/-- Outcome of `fetch(imageUrl)`: the call throws, or yields a response
with the given `ok` flag. -/
inductive ImgFetch where
  | throws : ImgFetch
  | resp : Bool → ImgFetch
deriving Repr, DecidableEq

/-- Arguments of `sendToDiscord` (src/watcher.js:76).  Absent JS values
are the empty string for the `||`-defaulted fields and `none` for
`imageUrl`. -/
structure SendArgs where
  title : String
  url : String
  description : String
  imageUrl : Option String
  timestamp : String
deriving Repr, DecidableEq

/-- What a `sendToDiscord` call did: the webhook requests it made, in
order, and the thrown `DeliveryError` message if it failed. -/
structure DispatchResult where
  requests : List WebhookRequest
  error : Option String
deriving Repr, DecidableEq

/-- The fallback path of `sendToDiscord` (src/watcher.js:123-139): POST
the embed as plain JSON; throw `DeliveryError` on a non-success status.
`prev` are requests already made by the multipart attempt. -/
def fallbackSend (a : SendArgs) (embed : Embed) (prev : List WebhookRequest)
    (resp : HttpResp) : DispatchResult :=
  let payload : Payload :=
    ⟨"Spidey Bot", "New Facebook Page post\n" ++ a.url, [embed]⟩
  let reqs := prev ++ [WebhookRequest.jsonPost payload]
  if resp.ok then ⟨reqs, none⟩
  else ⟨reqs, some ("Discord HTTP " ++ toString resp.status ++ ": " ++ resp.body)⟩

/-- The base embed built at src/watcher.js:78-83: defaulted title, url,
description cut to 3500 characters, defaulted timestamp, no image yet. -/
def baseEmbed (a : SendArgs) (now : String) : Embed :=
  ⟨jsOr a.title "New post", a.url, jsSliceTo (jsOr a.description "") 3500,
    jsOr a.timestamp now, none⟩

/-- The embed after src/watcher.js:94 mutated it to reference the
uploaded attachment. -/
def attEmbed (a : SendArgs) (now : String) : Embed :=
  { baseEmbed a now with image := some "attachment://image.jpg" }

/-- The payload of the multipart upload attempt (src/watcher.js:96-100). -/
def mpPayload (a : SendArgs) (now : String) : Payload :=
  ⟨"Spidey Bot", "New Facebook Page post\n" ++ a.url, [attEmbed a now]⟩

/-- `sendToDiscord` from src/watcher.js:76-140.  `now` models
`new Date().toISOString()`; `img` the image download; `mpResp` the
response to the multipart POST (when made) and `fbResp` the response to
the fallback JSON POST (when made).  A failed multipart POST throws
inside the `try` block, is caught, and falls through to the fallback with
the already-mutated embed. -/
def sendToDiscord (a : SendArgs) (now : String) (img : ImgFetch)
    (mpResp fbResp : HttpResp) : DispatchResult :=
  if truthyStr a.imageUrl then
    match img with
    | .throws => fallbackSend a (baseEmbed a now) [] fbResp
    | .resp false => fallbackSend a (baseEmbed a now) [] fbResp
    | .resp true =>
      if mpResp.ok then
        ⟨[WebhookRequest.multipart (mpPayload a now)], none⟩
      else
        fallbackSend a (attEmbed a now)
          [WebhookRequest.multipart (mpPayload a now)] fbResp
  else
    fallbackSend a (baseEmbed a now) [] fbResp

/-- The `description` argument `main` passes to `sendToDiscord`
(src/watcher.js:207): the cleaned message, or `" "` when it is empty. -/
def mainDescriptionArg (message : Option String) : String :=
  jsOr (cleanText message) " "

/-- A 301-character response body (a concrete input exceeding the
300-character cut applied by `fbFetch` to unparseable bodies). -/
def bigBody : String :=
  String.mk (List.replicate 301 'a')

end Watcher

namespace Watcher

example : makeTitleFromMessage "hello" = "hello" := by decide
example : makeTitleFromMessage "a  b" = "a b" := by decide
example : makeTitleFromMessage "" = "New Facebook Page post" := by decide
example : cleanText (some " hi ") = "hi" := by decide

example :
    runMain ⟨some "X"⟩
      (.ok [mkPost "A", mkPost "B", mkPost "X", mkPost "C"]) 5 =
      ⟨some ⟨some "A"⟩, [mkPost "B", mkPost "A"], true⟩ := by decide

example :
    runMain ⟨none⟩ (.ok [mkPost "A", mkPost "B"]) 0 =
      ⟨some ⟨some "A"⟩, [], true⟩ := by decide

example : runMain ⟨some "X"⟩ (.ok []) 3 = ⟨none, [], true⟩ := by decide

example :
    runMain ⟨some "X"⟩ (.ok [mkPost "A", mkPost "B", mkPost "X"]) 1 =
      ⟨none, [mkPost "B"], false⟩ := by decide

/-! ## Helper lemmas about the selector and the run -/

theorem newPostsOf_of_not_mem {posts : List Post} {wm : String}
    (h : ∀ p ∈ posts, p.id ≠ wm) : newPostsOf posts wm = posts := by
  induction posts with
  | nil => rfl
  | cons a t ih =>
    have ha : a.id ≠ wm := h a (List.mem_cons_self a t)
    have ht : ∀ p ∈ t, p.id ≠ wm := fun p hp => h p (List.mem_cons_of_mem a hp)
    simp only [newPostsOf, List.takeWhile_cons, bne_iff_ne, ne_eq, ha,
      not_false_eq_true, decide_True, if_true]
    simpa [newPostsOf] using ih ht

theorem newPostsOf_middle (pre suf : List Post) (x : Post) (wm : String)
    (hx : x.id = wm) (hpre : ∀ p ∈ pre, p.id ≠ wm) :
    newPostsOf (pre ++ x :: suf) wm = pre := by
  induction pre with
  | nil => simp [newPostsOf, List.takeWhile_cons, hx]
  | cons a t ih =>
    have ha : a.id ≠ wm := hpre a (List.mem_cons_self a t)
    have ht : ∀ p ∈ t, p.id ≠ wm := fun p hp => hpre p (List.mem_cons_of_mem a hp)
    simp only [List.cons_append, newPostsOf, List.takeWhile_cons, bne_iff_ne,
      ne_eq, ha, not_false_eq_true, decide_True, if_true]
    simpa [newPostsOf] using ih ht

theorem runMain_sel (wm : String) (first : Post) (rest : List Post) (k : Nat)
    (hne : wm ≠ "") :
    runMain ⟨some wm⟩ (.ok (first :: rest)) k =
      (if ((newPostsOf (first :: rest) wm).reverse).isEmpty then
        (⟨none, [], true⟩ : RunResult)
       else if k < (newPostsOf (first :: rest) wm).reverse.length then
         ⟨none, (newPostsOf (first :: rest) wm).reverse.take k, false⟩
       else
         ⟨some ⟨some first.id⟩, (newPostsOf (first :: rest) wm).reverse, true⟩) := by
  simp [runMain, truthyStr, hne]

/-! ## Claim theorems -/

/-- Claim C1: when the fetched newest-first sequence contains the watermark
id (not in first position), the selector collects exactly the posts
strictly before it, and the run delivers them in reversed, oldest-first
order. -/
theorem selector_collects_strictly_before (pre suf : List Post) (x : Post)
    (k : Nat) (hne : x.id ≠ "") (hpre : ∀ p ∈ pre, p.id ≠ x.id)
    (hk : pre.length ≤ k) :
    newPostsOf (pre ++ x :: suf) x.id = pre ∧
    (runMain ⟨some x.id⟩ (.ok (pre ++ x :: suf)) k).delivered = pre.reverse := by
  have hsel : newPostsOf (pre ++ x :: suf) x.id = pre :=
    newPostsOf_middle pre suf x x.id rfl hpre
  refine ⟨hsel, ?_⟩
  cases pre with
  | nil =>
    rw [List.nil_append, runMain_sel x.id x suf k hne]
    have h0 : newPostsOf (x :: suf) x.id = [] := by simpa using hsel
    simp [h0]
  | cons a t =>
    rw [List.cons_append, runMain_sel x.id a (t ++ x :: suf) k hne]
    have h1 : newPostsOf (a :: (t ++ x :: suf)) x.id = a :: t := by
      simpa using hsel
    have hnotlt : ¬ k < t.length + 1 := by
      simp only [List.length_cons] at hk
      omega
    simp [h1, hnotlt]

/-- Witness for C1 at the spec's own example: fetched `[A,B,X,C]`,
watermark `X`; selected `[A,B]`, delivered `[B,A]`. -/
theorem selector_collects_strictly_before_witness :
    newPostsOf [mkPost "A", mkPost "B", mkPost "X", mkPost "C"] "X" =
      [mkPost "A", mkPost "B"] ∧
    (runMain ⟨some "X"⟩
      (.ok [mkPost "A", mkPost "B", mkPost "X", mkPost "C"]) 2).delivered =
      [mkPost "B", mkPost "A"] :=
  selector_collects_strictly_before [mkPost "A", mkPost "B"] [mkPost "C"]
    (mkPost "X") 2 (by decide) (by decide) (by decide)

/-- Claim C2: a run with a null loaded watermark and a non-empty fetch
sends nothing and persists the id of the first (newest) fetched post. -/
theorem first_run_initializes (first : Post) (rest : List Post) (k : Nat) :
    runMain ⟨none⟩ (.ok (first :: rest)) k =
      ⟨some ⟨some first.id⟩, [], true⟩ := by
  simp [runMain, truthyStr]

/-- Claim C3: when the watermark id occurs nowhere in the fetched
sequence, the whole fetched sequence is selected as the new-post subset. -/
theorem selector_bounded_loss (posts : List Post) (wm : String)
    (h : ∀ p ∈ posts, p.id ≠ wm) : newPostsOf posts wm = posts :=
  newPostsOf_of_not_mem h

/-- Witness for C3: watermark `"Z"` absent from `[A,B]`; everything is
selected. -/
theorem selector_bounded_loss_witness :
    newPostsOf [mkPost "A", mkPost "B"] "Z" = [mkPost "A", mkPost "B"] :=
  selector_bounded_loss [mkPost "A", mkPost "B"] "Z" (by decide)

/-- Claim C9: a run whose fetch returns zero posts succeeds, delivers
nothing and never writes the state file. -/
theorem empty_fetch_no_effect (st : WatermarkState) (k : Nat) :
    runMain st (.ok []) k = ⟨none, [], true⟩ := by
  simp [runMain]

/-- Claim C4: a failed run (fetch error, or a delivery error mid-batch)
never writes the state file, and a state write can only happen in a run
that succeeded after delivering the whole selected batch. -/
theorem failed_run_preserves_watermark (st : WatermarkState)
    (fetched : Except String (List Post)) (k : Nat) :
    ((runMain st fetched k).ok = false → (runMain st fetched k).saved = none) ∧
    (∀ wm posts, st.last_post_id = some wm → wm ≠ "" → fetched = .ok posts →
      (runMain st fetched k).saved ≠ none →
      (runMain st fetched k).ok = true ∧
      (runMain st fetched k).delivered = (newPostsOf posts wm).reverse) := by
  obtain ⟨lp⟩ := st
  cases fetched with
  | error e =>
    refine ⟨fun _ => rfl, ?_⟩
    intro wm ps _ _ heq _
    simp at heq
  | ok posts =>
    cases posts with
    | nil =>
      refine ⟨?_, ?_⟩
      · intro h
        simp [runMain] at h
      · intro wm ps _ _ heq hs
        obtain rfl : ps = [] := by simpa using heq.symm
        simp [runMain] at hs
    | cons first rest =>
      cases lp with
      | none =>
        refine ⟨?_, ?_⟩
        · intro h
          simp [runMain, truthyStr] at h
        · intro wm ps hwm _ _ _
          simp at hwm
      | some w =>
        by_cases hw : w = ""
        · subst hw
          refine ⟨?_, ?_⟩
          · intro h
            simp [runMain, truthyStr] at h
          · intro wm ps hwm hne _ _
            simp at hwm
            exact absurd hwm.symm hne
        · rw [runMain_sel w first rest k hw]
          by_cases he : ((newPostsOf (first :: rest) w).reverse).isEmpty = true
          · rw [if_pos he]
            simp
          · rw [if_neg he]
            by_cases hk : k < ((newPostsOf (first :: rest) w).reverse).length
            · rw [if_pos hk]
              simp
            · rw [if_neg hk]
              refine ⟨fun h => by simp at h, ?_⟩
              intro wm ps hwm _ heq _
              obtain rfl : w = wm := by simpa using hwm
              obtain rfl : ps = first :: rest := by simpa using heq.symm
              exact ⟨rfl, rfl⟩

/-- Witness for C4 at a concrete failing run: watermark `X`, fetch
`[A,B,X]`, first delivery succeeds and the second throws; nothing is
written, and a successful variant of the same run writes only after the
whole batch went out. -/
theorem failed_run_preserves_watermark_witness :
    ((runMain ⟨some "X"⟩ (.ok [mkPost "A", mkPost "B", mkPost "X"]) 1).ok = false →
      (runMain ⟨some "X"⟩ (.ok [mkPost "A", mkPost "B", mkPost "X"]) 1).saved = none) ∧
    ((runMain ⟨some "X"⟩ (.ok [mkPost "A", mkPost "B", mkPost "X"]) 1).saved = none) :=
  ⟨(failed_run_preserves_watermark ⟨some "X"⟩
      (.ok [mkPost "A", mkPost "B", mkPost "X"]) 1).1,
    (failed_run_preserves_watermark ⟨some "X"⟩
      (.ok [mkPost "A", mkPost "B", mkPost "X"]) 1).1 (by decide)⟩

/-- Claim C5: with a non-null watermark loaded, any state write made by a
run stores the id of the newest post of the fetched page — an id present
in that page — and never null. -/
theorem watermark_only_advances (st : WatermarkState) (wm : String)
    (posts : List Post) (k : Nat) (s : WatermarkState)
    (hwm : st.last_post_id = some wm)
    (hs : (runMain st (.ok posts) k).saved = some s) :
    ∃ p rest, posts = p :: rest ∧ s.last_post_id = some p.id ∧
      p ∈ posts ∧ s.last_post_id ≠ none := by
  obtain ⟨lp⟩ := st
  simp only at hwm
  subst hwm
  cases posts with
  | nil => simp [runMain] at hs
  | cons first rest =>
    by_cases hw : wm = ""
    · subst hw
      simp [runMain, truthyStr] at hs
      exact ⟨first, rest, rfl, by simp [← hs], by simp, by simp [← hs]⟩
    · rw [runMain_sel wm first rest k hw] at hs
      by_cases he : ((newPostsOf (first :: rest) wm).reverse).isEmpty = true
      · rw [if_pos he] at hs
        simp at hs
      · rw [if_neg he] at hs
        by_cases hk : k < ((newPostsOf (first :: rest) wm).reverse).length
        · rw [if_pos hk] at hs
          simp at hs
        · rw [if_neg hk] at hs
          have h2 : (⟨some first.id⟩ : WatermarkState) = s := Option.some.inj hs
          subst h2
          exact ⟨first, rest, rfl, rfl, by simp, by simp⟩

/-- Witness for C5: watermark `X`, fetch `[A,X]`, delivery succeeds; the
written state holds the id `A` of the newest fetched post. -/
theorem watermark_only_advances_witness :
    ∃ p rest, [mkPost "A", mkPost "X"] = p :: rest ∧
      (⟨some "A"⟩ : WatermarkState).last_post_id = some p.id ∧
      p ∈ [mkPost "A", mkPost "X"] ∧
      (⟨some "A"⟩ : WatermarkState).last_post_id ≠ none :=
  watermark_only_advances ⟨some "X"⟩ "X" [mkPost "A", mkPost "X"] 5
    ⟨some "A"⟩ rfl (by decide)

/-! ## Helper lemmas for the title, the dispatcher and string lengths -/

theorem strLen_append (a b : String) : (a ++ b).length = a.length + b.length := by
  show ((a ++ b).data).length = a.data.length + b.data.length
  rw [show (a ++ b).data = a.data ++ b.data from rfl, List.length_append]

theorem jsOr_empty_right (a : String) : jsOr a "" = a := by
  unfold jsOr
  split
  next h => exact h.symm
  next => rfl

theorem mainDescriptionArg_ne_empty (m : Option String) :
    mainDescriptionArg m ≠ "" := by
  unfold mainDescriptionArg jsOr
  split
  next => decide
  next h => exact h

theorem fallbackSend_requests (a : SendArgs) (embed : Embed)
    (prev : List WebhookRequest) (resp : HttpResp) :
    (fallbackSend a embed prev resp).requests =
      prev ++ [WebhookRequest.jsonPost
        ⟨"Spidey Bot", "New Facebook Page post\n" ++ a.url, [embed]⟩] := by
  unfold fallbackSend
  split <;> rfl

theorem fallbackSend_error (a : SendArgs) (embed : Embed)
    (prev : List WebhookRequest) (resp : HttpResp) :
    ((fallbackSend a embed prev resp).error = none ↔ resp.ok = true) := by
  unfold fallbackSend
  split
  next h => simpa using h
  next h => simpa using h

/-- Claim C6 is refuted: the title maker does not pass a short message
through unchanged — it first collapses whitespace runs.  `"a  b"` has at
most 80 characters yet its title is `"a b"`, not `"a  b"`. -/
theorem title_not_passed_through_counterexample :
    ("a  b" : String).length ≤ 80 ∧ makeTitleFromMessage "a  b" = "a b" ∧
      makeTitleFromMessage "a  b" ≠ "a  b" :=
  ⟨by decide, by decide, by decide⟩

/-- Claim C6 (amended): the title is derived from the normalised message
(whitespace runs collapsed to single spaces, ends trimmed): an empty or
absent message gives the fixed default, a normalised form of at most 80
characters is used as-is, a longer one is cut to its first 77 characters
plus an ellipsis marker; titles never exceed 80 characters. -/
theorem title_derivation_amended (msg : String) :
    (msg = "" → makeTitleFromMessage msg = "New Facebook Page post") ∧
    (msg ≠ "" → (normalizeMsg msg).length ≤ 80 →
      makeTitleFromMessage msg = normalizeMsg msg) ∧
    (msg ≠ "" → 80 < (normalizeMsg msg).length →
      makeTitleFromMessage msg =
        String.mk ((normalizeMsg msg).toList.take 77) ++ "...") ∧
    (makeTitleFromMessage msg).length ≤ 80 := by
  by_cases h : msg = ""
  · subst h
    exact ⟨fun _ => rfl, fun hne => absurd rfl hne, fun hne => absurd rfl hne,
      by decide⟩
  · have hd : makeTitleFromMessage msg =
        (if (normalizeMsg msg).length > 80 then
          String.mk ((normalizeMsg msg).toList.take 77) ++ "..."
        else normalizeMsg msg) := by
      simp [makeTitleFromMessage, normalizeMsg, h]
    have htk : (String.mk ((normalizeMsg msg).toList.take 77)).length ≤ 77 := by
      show ((normalizeMsg msg).toList.take 77).length ≤ 77
      exact List.length_take_le 77 (normalizeMsg msg).toList
    by_cases hl : 80 < (normalizeMsg msg).length
    · refine ⟨fun he => absurd he h, fun _ hle => by omega, fun _ _ => ?_, ?_⟩
      · rw [hd, if_pos hl]
      · rw [hd, if_pos hl, strLen_append]
        have : ("..." : String).length = 3 := by decide
        omega
    · refine ⟨fun he => absurd he h, fun _ _ => by rw [hd, if_neg hl],
        fun _ hgt => absurd hgt hl, ?_⟩
      rw [hd, if_neg hl]
      omega

/-- Witness for the amended C6: the normalised form of `"a  b"` fits in 80
characters and is the title. -/
theorem title_derivation_amended_witness :
    makeTitleFromMessage "a  b" = normalizeMsg "a  b" :=
  (title_derivation_amended "a  b").2.1 (by decide) (by decide)

/-- Claim C7 is refuted: the embed description sent for a post is not the
raw message truncated; the message is trimmed first (and an absent or
blank message becomes a single space).  For message `" hi "` the
dispatched description is `"hi"`, which no truncation of `" hi "` equals. -/
theorem description_not_raw_message_counterexample :
    (sendToDiscord ⟨"t", "u", mainDescriptionArg (some " hi "), none, "ts"⟩
        "now" (.resp true) ⟨true, 204, ""⟩ ⟨true, 204, ""⟩).requests =
      [WebhookRequest.jsonPost ⟨"Spidey Bot", "New Facebook Page post\nu",
        [⟨"t", "u", "hi", "ts", none⟩]⟩] ∧
    ("hi" : String) ≠ jsSliceTo " hi " 3500 :=
  ⟨by decide, by decide⟩

/-- Claim C7 (amended): for every dispatched notification built from a
post message, every embed sent to the webhook carries as description the
trimmed message — a single space when the message is absent or blank —
truncated to its first 3500 characters; in particular it never exceeds
3500 characters. -/
theorem description_truncation_amended (message : Option String)
    (title url timestamp now : String) (imageUrl : Option String)
    (img : ImgFetch) (mp fb : HttpResp) :
    ∀ req ∈ (sendToDiscord ⟨title, url, mainDescriptionArg message, imageUrl,
        timestamp⟩ now img mp fb).requests,
      ∀ e ∈ (reqPayload req).embeds,
        e.description = jsSliceTo (mainDescriptionArg message) 3500 ∧
        e.description.length ≤ 3500 := by
  have hbase : (baseEmbed ⟨title, url, mainDescriptionArg message, imageUrl,
      timestamp⟩ now).description = jsSliceTo (mainDescriptionArg message) 3500 := by
    show jsSliceTo (jsOr (mainDescriptionArg message) "") 3500 = _
    rw [jsOr_empty_right]
  have hlen : (jsSliceTo (mainDescriptionArg message) 3500).length ≤ 3500 := by
    show ((mainDescriptionArg message).toList.take 3500).length ≤ 3500
    exact List.length_take_le 3500 (mainDescriptionArg message).toList
  intro req hreq e he
  set a : SendArgs := ⟨title, url, mainDescriptionArg message, imageUrl,
    timestamp⟩ with ha
  by_cases hi : truthyStr a.imageUrl
  · unfold sendToDiscord at hreq
    rw [if_pos hi] at hreq
    cases img with
    | throws =>
      rw [fallbackSend_requests] at hreq
      simp at hreq
      subst hreq
      simp [reqPayload] at he
      subst he
      exact ⟨hbase, hbase ▸ hlen⟩
    | resp b =>
      cases b with
      | false =>
        rw [fallbackSend_requests] at hreq
        simp at hreq
        subst hreq
        simp [reqPayload] at he
        subst he
        exact ⟨hbase, hbase ▸ hlen⟩
      | true =>
        have hatt : (attEmbed a now).description =
            jsSliceTo (mainDescriptionArg message) 3500 := hbase
        by_cases hm : mp.ok = true
        · rw [if_pos hm] at hreq
          simp at hreq
          subst hreq
          simp [reqPayload, mpPayload] at he
          subst he
          exact ⟨hatt, hatt ▸ hlen⟩
        · rw [if_neg hm, fallbackSend_requests] at hreq
          simp at hreq
          rcases hreq with hreq | hreq <;> subst hreq <;>
            simp [reqPayload, mpPayload] at he <;> subst he
          · exact ⟨hatt, hatt ▸ hlen⟩
          · exact ⟨hatt, hatt ▸ hlen⟩
  · unfold sendToDiscord at hreq
    rw [if_neg hi, fallbackSend_requests] at hreq
    simp at hreq
    subst hreq
    simp [reqPayload] at he
    subst he
    exact ⟨hbase, hbase ▸ hlen⟩

/-- Witness for the amended C7: concrete dispatch of message `"m"`; the
embed in the sent request carries the truncated cleaned message. -/
theorem description_truncation_amended_witness :
    (⟨"t", "u", "m", "ts", none⟩ : Embed).description =
      jsSliceTo (mainDescriptionArg (some "m")) 3500 ∧
    (⟨"t", "u", "m", "ts", none⟩ : Embed).description.length ≤ 3500 :=
  description_truncation_amended (some "m") "t" "u" "ts" "now" none
    .throws ⟨true, 200, ""⟩ ⟨true, 200, ""⟩
    (WebhookRequest.jsonPost ⟨"Spidey Bot", "New Facebook Page post\nu",
      [⟨"t", "u", "m", "ts", none⟩]⟩)
    (by decide) ⟨"t", "u", "m", "ts", none⟩ (by decide)

/-- Claim C10: in the attachment-upload variant, when the image download
fails (thrown exception or non-success status), the run does not fail on
that account: exactly one plain JSON request is sent, its embed has no
uploaded-image reference, and a `DeliveryError` arises precisely when the
webhook answers that request with a non-success status. -/
theorem image_download_failure_falls_back (a : SendArgs) (now : String)
    (img : ImgFetch) (mp fb : HttpResp)
    (hi : truthyStr a.imageUrl = true)
    (hf : img = .throws ∨ img = .resp false) :
    (sendToDiscord a now img mp fb).requests =
      [WebhookRequest.jsonPost ⟨"Spidey Bot",
        "New Facebook Page post\n" ++ a.url, [baseEmbed a now]⟩] ∧
    (baseEmbed a now).image = none ∧
    ((sendToDiscord a now img mp fb).error = none ↔ fb.ok = true) := by
  have hreq : ∀ i, (i = ImgFetch.throws ∨ i = ImgFetch.resp false) →
      sendToDiscord a now i mp fb = fallbackSend a (baseEmbed a now) [] fb := by
    intro i hi2
    rcases hi2 with rfl | rfl <;>
      · unfold sendToDiscord
        rw [if_pos hi]
  rw [hreq img hf, fallbackSend_requests, fallbackSend_error]
  exact ⟨by simp, rfl, Iff.rfl⟩

/-- Witness for C10: image URL present, download throws, webhook accepts
the fallback request; one plain JSON request, no error. -/
theorem image_download_failure_falls_back_witness :
    (sendToDiscord ⟨"t", "u", "d", some "http://img", "ts"⟩ "now"
        .throws ⟨true, 200, ""⟩ ⟨true, 204, ""⟩).requests =
      [WebhookRequest.jsonPost ⟨"Spidey Bot", "New Facebook Page post\nu",
        [baseEmbed ⟨"t", "u", "d", some "http://img", "ts"⟩ "now"]⟩] ∧
    (baseEmbed ⟨"t", "u", "d", some "http://img", "ts"⟩ "now").image = none ∧
    ((sendToDiscord ⟨"t", "u", "d", some "http://img", "ts"⟩ "now"
        .throws ⟨true, 200, ""⟩ ⟨true, 204, ""⟩).error = none ↔
      (⟨true, 204, ""⟩ : HttpResp).ok = true) :=
  image_download_failure_falls_back ⟨"t", "u", "d", some "http://img", "ts"⟩
    "now" .throws ⟨true, 200, ""⟩ ⟨true, 204, ""⟩ (by decide) (Or.inl rfl)

/-! ## Helper lemmas about substring containment -/

theorem listStarts_append (x r : List Char) : listStarts (x ++ r) x = true := by
  induction x with
  | nil => simp [listStarts]
  | cons a t ih => simp [listStarts, ih]

theorem listContains_of_starts (hay needle : List Char)
    (h : listStarts hay needle = true) : listContains hay needle = true := by
  cases hay with
  | nil =>
    cases needle with
    | nil => rfl
    | cons b bs => simp [listStarts] at h
  | cons c t =>
    show (listStarts (c :: t) needle || listContains t needle) = true
    rw [h]
    simp

theorem listContains_middle (pre x post : List Char) :
    listContains (pre ++ (x ++ post)) x = true := by
  induction pre with
  | nil =>
    rw [List.nil_append]
    exact listContains_of_starts _ _ (listStarts_append x post)
  | cons a t ih =>
    show (listStarts (a :: (t ++ (x ++ post))) x ||
      listContains (t ++ (x ++ post)) x) = true
    rw [ih]
    simp

theorem strAppend_assoc (a b c : String) : (a ++ b) ++ c = a ++ (b ++ c) := by
  show String.mk ((a.data ++ b.data) ++ c.data) =
    String.mk (a.data ++ (b.data ++ c.data))
  rw [List.append_assoc]

theorem strContains_mid (a b c : String) : strContains ((a ++ b) ++ c) b = true := by
  show listContains (((a ++ b) ++ c).toList) b.toList = true
  rw [show ((a ++ b) ++ c).toList = a.toList ++ (b.toList ++ c.toList) from by
    rw [show ((a ++ b) ++ c).toList = (a.toList ++ b.toList) ++ c.toList from rfl,
      List.append_assoc]]
  exact listContains_middle _ _ _

theorem strContains_right (a b : String) : strContains (a ++ b) b = true := by
  show listContains ((a ++ b).toList) b.toList = true
  rw [show (a ++ b).toList = a.toList ++ b.toList from rfl]
  have h := listContains_middle a.toList b.toList []
  rwa [List.append_nil] at h

set_option maxRecDepth 40000 in
/-- Claim C8 is refuted on the body-inclusion part: for an unparseable
301-character body, the thrown message carries only the first 300
characters, so the raw response body does not occur in it. -/
theorem fbFetch_body_truncated_counterexample :
    ∃ m, fbFetch 500 false bigBody none = .error m ∧
      strContains m bigBody = false :=
  ⟨_, rfl, by decide⟩

/-- Claim C8 (amended): `fbFetch` throws exactly when the status is
non-success, the body is unparseable, or the parsed body has a truthy
`error` member; the message carries the status together with the
serialized body — or, for an unparseable body, its first 300 characters —
and otherwise the parsed body is returned. -/
theorem fbFetch_error_amended (status : Nat) (ok : Bool) (text : String)
    (parsed : Option JsonVal) :
    ((∃ m, fbFetch status ok text parsed = .error m) ↔
      (ok = false ∨ parsed = none ∨
        ∃ j, parsed = some j ∧ truthyJson (getField j "error") = true)) ∧
    (∀ j, fbFetch status ok text parsed = .ok j →
      parsed = some j ∧ ok = true ∧
        truthyJson (getField j "error") = false) ∧
    (∀ m, fbFetch status ok text parsed = .error m →
      strContains m (toString status) = true ∧
      ((parsed = none ∧ strContains m (jsSliceTo text 300) = true) ∨
       (∃ j, parsed = some j ∧ strContains m (serializeJson j) = true))) := by
  cases parsed with
  | none =>
    refine ⟨⟨fun _ => Or.inr (Or.inl rfl), fun _ => ⟨_, rfl⟩⟩, ?_, ?_⟩
    · intro j h
      simp [fbFetch] at h
    · intro m h
      have hm : m = "FB HTTP " ++ toString status ++ ": Non-JSON response: " ++
          jsSliceTo text 300 := by
        simpa [fbFetch] using h.symm
      subst hm
      refine ⟨?_, Or.inl ⟨rfl, strContains_right _ _⟩⟩
      rw [strAppend_assoc ("FB HTTP " ++ toString status)
        ": Non-JSON response: " (jsSliceTo text 300)]
      exact strContains_mid "FB HTTP " (toString status) _
  | some j =>
    by_cases hc : (!ok || truthyJson (getField j "error")) = true
    · have hf : fbFetch status ok text (some j) =
          .error ("FB HTTP " ++ toString status ++ ": " ++ serializeJson j) := by
        simp [fbFetch, hc]
      have hc2 : ok = false ∨ truthyJson (getField j "error") = true := by
        simpa using hc
      refine ⟨?_, ?_, ?_⟩
      · refine ⟨fun _ => ?_, fun _ => ⟨_, hf⟩⟩
        rcases hc2 with h1 | h1
        · exact Or.inl h1
        · exact Or.inr (Or.inr ⟨j, rfl, h1⟩)
      · intro j2 hj2
        rw [hf] at hj2
        simp at hj2
      · intro m hm
        rw [hf] at hm
        have hm2 : m = "FB HTTP " ++ toString status ++ ": " ++ serializeJson j := by
          simpa using hm.symm
        subst hm2
        refine ⟨?_, Or.inr ⟨j, rfl, strContains_right _ _⟩⟩
        rw [strAppend_assoc ("FB HTTP " ++ toString status)
          ": " (serializeJson j)]
        exact strContains_mid "FB HTTP " (toString status) _
    · have hc3 : (!ok || truthyJson (getField j "error")) = false := by
        simpa using hc
      have hf : fbFetch status ok text (some j) = .ok j := by
        simp [fbFetch, hc3]
      have hc4 : ok = true ∧ truthyJson (getField j "error") = false := by
        simpa using hc3
      refine ⟨?_, ?_, ?_⟩
      · refine ⟨fun hex => ?_, fun hdis => ?_⟩
        · obtain ⟨m, hm⟩ := hex
          rw [hf] at hm
          simp at hm
        · rcases hdis with h1 | h1 | ⟨j2, hj2, h2⟩
          · rw [hc4.1] at h1
            simp at h1
          · simp at h1
          · obtain rfl : j2 = j := by simpa using hj2.symm
            rw [hc4.2] at h2
            simp at h2
      · intro j2 hj2
        rw [hf] at hj2
        obtain rfl : j = j2 := by simpa using hj2
        exact ⟨rfl, hc4.1, hc4.2⟩
      · intro m hm
        rw [hf] at hm
        simp at hm

/-- Witness for the amended C8: a concrete unparseable response; the
thrown message contains the status. -/
theorem fbFetch_error_amended_witness :
    strContains ("FB HTTP " ++ toString 500 ++ ": Non-JSON response: " ++
      jsSliceTo "x" 300) (toString 500) = true :=
  ((fbFetch_error_amended 500 false "x" none).2.2
    ("FB HTTP " ++ toString 500 ++ ": Non-JSON response: " ++
      jsSliceTo "x" 300) rfl).1

end Watcher
